import Mathlib

/-!
Shallow embedding of the write-coordination core of `db/write_thread.cc`
and the NVM environment layer of `nvm/env_nvm.cc` (rocksdb NVM port),
with theorems settling the specification claims about them.

Machine integers are modelled as `Nat`/`Int`: none of the quantities
involved (byte sizes, queue lengths, thread counters) approach the
overflow boundary in the claims under study, and the source arithmetic
on them is plain addition/comparison.
-/

namespace RocksNvm

/-- The subset of `rocksdb::Status` codes produced by the embedded code.
`ioError` carries the message string passed to `Status::IOError`. -/
inductive Status where
  | ok : Status
  | notFound : Status
  | timedOut : Status
  | ioError : String → Status
deriving DecidableEq, Repr

/-- A write batch, abstracted to the two observations `write_thread.cc`
makes of it: `WriteBatchInternal::ByteSize` and `WriteBatch::Count`. -/
structure Batch where
  byteSize : Nat
  count : Nat
deriving DecidableEq, Repr

/-- `WriteThread::Writer` (fields used by `BuildBatchGroup`).
`batch = none` models a null `WriteBatch*` pointer.
`id` models pointer identity (two distinct live writers never share it). -/
structure Writer where
  id : Nat
  batch : Option Batch
  sync : Bool
  disableWAL : Bool
  timeout_hint_us : Nat
  has_callback : Bool
deriving DecidableEq, Repr

/-- The compatibility tests of the scan loop of `BuildBatchGroup`
(write_thread.cc lines 218-245), in source order: a candidate `w` passes
iff none of the five `break` conditions preceding the size check fires. -/
def compatOk (first w : Writer) : Bool :=
  !(w.sync && !first.sync) &&
  !(!w.disableWAL && first.disableWAL) &&
  !(w.timeout_hint_us < first.timeout_hint_us) &&
  !w.has_callback &&
  !(w.batch == none)

/-- The scan loop of `BuildBatchGroup` (write_thread.cc lines 214-256):
walk the writers after `first`, breaking on the first incompatible writer
or when the running `size` exceeds `max_size`.  Returns the list of
writers merged into the group (those whose `in_batch_group` flag the
source sets, in order) and the final value of `size`.  Note the source
adds a batch's byte size to `size` *before* testing `size > max_size`,
so the returned `size` includes the batch that caused a size break even
though that batch is not part of the group. -/
def scanGroup (first : Writer) (max_size : Nat) : List Writer → Nat → List Writer × Nat
  | [], size => ([], size)
  | w :: ws, size =>
    if compatOk first w then
      match w.batch with
      | none => ([], size)
      | some b =>
        let size1 := size + b.byteSize
        if size1 > max_size then ([], size1)
        else
          let r := scanGroup first max_size ws size1
          (w :: r.1, r.2)
    else ([], size)

/-- `WriteThread::BuildBatchGroup` (write_thread.cc lines 188-258).
Returns `none` when a `REQUIRES` clause is violated (empty writer list or
null first batch — an assertion failure in the source); otherwise returns
the batch group as the list of merged writers, `first` included, together
with the returned cumulative `size`.  `*last_writer` is the last element
of the returned list; the batches pushed into `*write_batch_group` are
the batches of the returned list, in order. -/
def buildBatchGroup (writers : List Writer) : Option (List Writer × Nat) :=
  match writers with
  | [] => none
  | first :: rest =>
    match first.batch with
    | none => none
    | some b =>
      let size := b.byteSize
      let max_size := if size ≤ 128 * 1024 then size + 128 * 1024 else 1048576
      if first.has_callback then some ([first], size)
      else
        let r := scanGroup first max_size rest size
        some (first :: r.1, r.2)

/-- Byte size of a writer's batch (0 for a null batch; only applied to
writers whose batch is non-null). -/
def wSize (w : Writer) : Nat :=
  match w.batch with
  | none => 0
  | some b => b.byteSize

/-- Total byte size of the batches of a list of writers. -/
def groupBytes (ws : List Writer) : Nat := (ws.map wSize).sum

/-- The `max_size` computed at write_thread.cc lines 201-204 from the
byte size of the first writer's batch. -/
def maxSizeOf (first : Writer) : Nat :=
  if wSize first ≤ 128 * 1024 then wSize first + 128 * 1024 else 1048576

/-- The writer-visible state read by the wait loop of
`EnterWriteThread` while the queue mutex is held: the writer's `done`
flag, whether `parallel_execute_id > 0`, whether the writer is
`writers_.front()`, and its `in_batch_group` flag.  Other threads change
these only while the waiting writer has released the mutex, so the loop
sees one consistent `WState` per wake-up. -/
structure WState where
  done : Bool
  pidPos : Bool
  isFront : Bool
  in_batch_group : Bool
deriving DecidableEq, Repr

/-- The condition of the wait loop at write_thread.cc line 20:
`!w->done && w->parallel_execute_id <= 0 && w != writers_.front()`. -/
def loopCond (s : WState) : Bool :=
  !s.done && !s.pidPos && !s.isFront

/-- The wait loop of `EnterWriteThread` (write_thread.cc lines 19-34),
driven by a trace of wake-ups.  Each trace element is the outcome of one
`cv.Wait()` / `cv.TimedWait(...)` call: whether `TimedWait` reported
expiry (ignored by the untimed `Wait`) and the writer-visible state
after the mutex is re-acquired.  Returns `some (timed_out, s)` when the
loop exits with flag `timed_out` in state `s`, and `none` when the trace
is exhausted while the writer is still blocked. -/
def enterLoop (expiration_time : Nat) (s : WState) :
    List (Bool × WState) → Option (Bool × WState)
  | [] => if loopCond s then none else some (false, s)
  | (expired, s1) :: tr =>
    if loopCond s then
      if expiration_time = 0 then enterLoop 0 s1 tr
      else if expired then
        if s1.in_batch_group then enterLoop 0 s1 tr
        else some (true, s1)
      else enterLoop expiration_time s1 tr
    else some (false, s)

/-- The writer queue as seen from `EnterWriteThread`'s timeout branch:
the ids of the queued writers in order, plus the ids whose `cv.Signal()`
has been called. -/
structure QState where
  writers : List Nat
  signaled : List Nat
deriving DecidableEq, Repr

/-- `writers_.erase` of the first element equal to `w`
(write_thread.cc lines 44-52). -/
def eraseFirstId (w : Nat) : List Nat → List Nat
  | [] => []
  | x :: xs => if x = w then xs else x :: eraseFirstId w xs

/-- The queue repair of the timeout branch (write_thread.cc lines
40-62): erase the timed-out writer from `writers_` and, if the queue is
then non-empty, signal the new head's `cv`. -/
def timeoutRemove (w : Nat) (q : QState) : QState :=
  let ws := eraseFirstId w q.writers
  { writers := ws,
    signaled := match ws with
                | [] => q.signaled
                | f :: _ => f :: q.signaled }

/-- `WriteThread::EnterWriteThread` (write_thread.cc lines 10-65) after
the initial `writers_.push_back(w)`: run the wait loop on the wake-up
trace `tr`; on exit, return `OK` when the writer was promoted to a
parallel worker (`!w->done && w->parallel_execute_id > 0`), else repair
the queue and return `TimedOut` when the loop timed out, else `OK`.
`q` is the queue state at loop exit (the queue is shared and is mutated
by other threads while the writer waits). -/
def enterWriteThread (w : Nat) (expiration_time : Nat) (s : WState)
    (tr : List (Bool × WState)) (q : QState) : Option (Status × QState) :=
  match enterLoop expiration_time s tr with
  | none => none
  | some (timed_out, sx) =>
    if !sx.done && sx.pidPos then some (Status.ok, q)
    else if timed_out then some (Status.timedOut, timeoutRemove w q)
    else some (Status.ok, q)

/-- A writer as seen from `ExitWriteThread`: pointer identity, the
`done` flag and the `status` field it writes. -/
structure EWriter where
  id : Nat
  done : Bool
  status : Status
deriving DecidableEq, Repr

/-- The pop loop of `ExitWriteThread` (write_thread.cc lines 166-175):
pop head writers until `last_writer` (inclusive) or the queue empties;
each popped writer other than `w` gets `status`, `done = true` and a
`cv.Signal()`.  Returns (popped writers after their updates, remaining
queue, signaled ids in order). -/
def exitLoop (wid lastId : Nat) (st : Status) :
    List EWriter → List EWriter × List EWriter × List Nat
  | [] => ([], [], [])
  | ready :: rest =>
    let updated := if ready.id ≠ wid
      then { ready with status := st, done := true } else ready
    let sigs := if ready.id ≠ wid then [ready.id] else []
    if ready.id = lastId then (([updated], rest, sigs) : List EWriter × List EWriter × List Nat)
    else
      let r := exitLoop wid lastId st rest
      (updated :: r.1, r.2.1, sigs ++ r.2.2)

/-- `WriteThread::ExitWriteThread` (write_thread.cc lines 161-181): the
pop loop followed by a `cv.Signal()` to the new head of `writers_` when
the queue is non-empty. -/
def exitWriteThread (wid lastId : Nat) (st : Status) (writers : List EWriter) :
    List EWriter × List EWriter × List Nat :=
  let r := exitLoop wid lastId st writers
  match r.2.1 with
  | [] => r
  | f :: _ => (r.1, r.2.1, r.2.2 ++ [f.id])

/-- A writer as seen from `StartParallelRun`: pointer identity and its
batch (whose `Count()` the loop dereferences). -/
structure PWriter where
  id : Nat
  batch : Option Batch
deriving DecidableEq, Repr

/-- `WriteBatch::Count` of a writer's batch (0 for a null batch). -/
def wCount (w : PWriter) : Nat :=
  match w.batch with
  | none => 0
  | some b => b.count

/-- Total `Count()` of the batches of a list of writers. -/
def groupCount (ws : List PWriter) : Nat := (ws.map wCount).sum

/-- The loop of `StartParallelRun` (write_thread.cc lines 71-87): walk
`writers_` from the head, pushing each writer onto `parallel_writers_`
with its assigned `parallel_execute_id`, advancing the id by the
writer's `batch->Count()`, signaling every writer other than `w`, and
popping from `writers_` — except `last_writer`, which is left at the
head.  Returns (the `parallel_writers_` entries pushed, paired with
their assigned ids; the remaining `writers_`; the signaled ids in
order), or `none` when the loop dereferences a null `batch`. -/
def sprLoop (wid lastId : Nat) :
    List PWriter → Nat → Option (List (PWriter × Nat) × List PWriter × List Nat)
  | [], _ => some ([], [], [])
  | f :: rest, pid =>
    match f.batch with
    | none => none
    | some b =>
      let sigs := if f.id ≠ wid then [f.id] else []
      if f.id ≠ lastId then
        match sprLoop wid lastId rest (pid + b.count) with
        | none => none
        | some (ps, rem, s2) => some ((f, pid) :: ps, rem, sigs ++ s2)
      else some ([(f, pid)], f :: rest, sigs)

/-- `WriteThread::StartParallelRun` (write_thread.cc lines 67-89):
store `num_threads` into `unfinished_threads_`, then run the loop with
`parallel_id` starting at 1.  The `Int` component is the stored value of
`unfinished_threads_`. -/
def startParallelRun (wid : Nat) (num_threads : Nat) (lastId : Nat)
    (writers : List PWriter) :
    Option (List (PWriter × Nat) × List PWriter × List Nat × Int) :=
  match sprLoop wid lastId writers 1 with
  | none => none
  | some (ps, rem, sigs) => some (ps, rem, sigs, (num_threads : Int))

/-- The `parallel_execute_id` assignment as the spec words it
(spec §4.1.3): ids start at `pid` and each subsequent writer's id is the
previous one advanced by that writer's `batch.count()`.  Stated from the
spec for comparison with what `sprLoop` computes. -/
def specAssignIds (pid : Nat) : List PWriter → List (PWriter × Nat)
  | [] => []
  | w :: ws => (w, pid) :: specAssignIds (pid + wCount w) ws

/-- `WriteThread::ReportParallelRunFinish` (write_thread.cc lines
91-93): `unfinished_threads_.fetch_add(-1) == 1`.  Given the counter
value `c`, returns the boolean result and the new counter value. -/
def reportParallelRunFinish (c : Int) : Bool × Int :=
  (c == 1, c + (-1))

/-- `k` successive calls of `ReportParallelRunFinish` starting from
counter value `c`: the list of their boolean results. -/
def runReports : Nat → Int → List Bool
  | 0, _ => []
  | k + 1, c =>
    (reportParallelRunFinish c).1 :: runReports k (reportParallelRunFinish c).2

/-- Modelled from the spec: `FPathInfo` is declared in `env_nvm.h`,
which is not under src/.  It is abstracted to the three observations
`env_nvm.cc` makes of a parsed path: `nvm_managed()`, `dpath()` and
`fname()`. -/
structure FPathInfo where
  nvm_managed : Bool
  dpath : String
  fname : String
deriving DecidableEq, Repr

/-- An NVM file object as `env_nvm.cc` observes it: pointer identity
and the current file name (`IsNamed`, `GetFname`, `Rename`). -/
structure NvmFile where
  id : Nat
  fname : String
deriving DecidableEq, Repr

/-- The in-memory catalogue `fs_` of `EnvNVM`:
`std::map<std::string, std::deque<NvmFile*>>` keyed by directory path,
as an association list (a C++ `std::map` has unique keys). -/
abbrev NvmFS : Type := List (String × List NvmFile)

/-- `fs_.find(dpath)` — the deque of files of a directory, if present. -/
def lookupDir (fs : NvmFS) (d : String) : Option (List NvmFile) :=
  (List.find? (fun e => e.1 == d) fs).map (fun e => e.2)

/-- Replace the deque of files of directory `d`. -/
def updateDir (fs : NvmFS) (d : String) (files : List NvmFile) : NvmFS :=
  List.map (fun e => if e.1 == d then (e.1, files) else e) fs

/-- Erase the first file named `n` from a deque, or `none` when no file
of that name is present (the loop of `DeleteFileUnguarded`). -/
def removeFirstNamed (n : String) : List NvmFile → Option (List NvmFile)
  | [] => none
  | f :: fsx =>
    if f.fname == n then some fsx
    else (removeFirstNamed n fsx).map (fun r => f :: r)

/-- Modelled from the spec: the default (posix) `Env` backing `EnvNVM`
is out of scope of the repository sources under src/ ("file-system
abstraction and its pluggable backends" is an external collaborator).
It is abstracted to the operations `env_nvm.cc` delegates to:
`file_ok` says which paths exist (`FileExists` returns OK exactly for
them and does not modify the file system), `children` is the listing
`GetChildren` produces (`none` modelling a failure status), and
`renameStatus` is the status posix `RenameFile` returns. -/
structure PosixEnv where
  file_ok : String → Bool
  children : String → Option (List String)
  renameStatus : String → String → Status

/-- Posix `Env::FileExists`: OK exactly when the path exists. -/
def posixFileExists (px : PosixEnv) (p : String) : Status :=
  if px.file_ok p then Status.ok else Status.notFound

/-- The environment parameters of the `EnvNVM` model: the `FPathInfo`
constructor (`parse`), the posix backend, the `NvmFile` meta-file
constructor (`NvmFile(this, info, mpath)`, defined outside src/;
`none` models the constructor throwing), and `FPathInfo::sep`. -/
structure EnvParams where
  parse : String → FPathInfo
  posix : PosixEnv
  metaLoad : FPathInfo → String → Option NvmFile
  sep : String

/-- `EnvNVM::DeleteFileUnguarded` (env_nvm.cc lines 150-172): look up
the directory in `fs_`; `NotFound` when the directory or the file is
missing, otherwise erase the first file of that name and return OK. -/
def deleteFileUnguarded (fs : NvmFS) (info : FPathInfo) : Status × NvmFS :=
  match lookupDir fs info.dpath with
  | none => (Status.notFound, fs)
  | some files =>
    match removeFirstNamed info.fname files with
    | none => (Status.notFound, fs)
    | some files1 => (Status.ok, updateDir fs info.dpath files1)

/-- `EnvNVM::FindFileUnguarded` (env_nvm.cc lines 236-278): `none` when
the directory is not in `fs_`; otherwise the first file of the wanted
name in the directory's deque; otherwise fall back to the posix listing
of the directory, take the first entry that ends in "meta" and starts
with the wanted file name, and construct an `NvmFile` from that
meta-file (the constructed file is *not* inserted into `fs_`). -/
def findFileUnguarded (ep : EnvParams) (fs : NvmFS) (info : FPathInfo) :
    Option NvmFile :=
  match lookupDir fs info.dpath with
  | none => none
  | some files =>
    match List.find? (fun f => f.fname == info.fname) files with
    | some f => some f
    | none =>
      match ep.posix.children info.dpath with
      | none => none
      | some listing =>
        match List.find? (fun e =>
            e.endsWith "meta" && e.startsWith info.fname) listing with
        | none => none
        | some entry => ep.metaLoad info (info.dpath ++ ep.sep ++ entry)

/-- `EnvNVM::DeleteFile` (env_nvm.cc lines 174-187): for a path that is
not NVM-managed, delegate to `posix_->FileExists(fpath)` — note: not to
posix `DeleteFile` — leaving every file system untouched; otherwise
delete from the in-memory catalogue. -/
def deleteFile (ep : EnvParams) (fs : NvmFS) (fpath : String) : Status × NvmFS :=
  let info := ep.parse fpath
  if !info.nvm_managed then (posixFileExists ep.posix fpath, fs)
  else deleteFileUnguarded fs info

/-- `NvmFile::Rename` reflected through the catalogue: the file object
with identity `fid` gets file name `newName` wherever `fs_` references
it (pointer mutation). -/
def renameInFs (fs : NvmFS) (fid : Nat) (newName : String) : NvmFS :=
  List.map (fun e => (e.1,
    List.map (fun f => if f.id == fid then { f with fname := newName } else f) e.2)) fs

/-- `EnvNVM::RenameFile` (env_nvm.cc lines 318-357).  Line 327 of the
source tests `info_src.nvm_managed() ^ info_src.nvm_managed()` — the
same operand on both sides of the xor — and that is reproduced here
verbatim; the test is identically false. -/
def renameFile (ep : EnvParams) (fs : NvmFS) (fpath_src fpath_tgt : String) :
    Status × NvmFS :=
  let info_src := ep.parse fpath_src
  let info_tgt := ep.parse fpath_tgt
  if Bool.xor info_src.nvm_managed info_src.nvm_managed then
    (Status.ioError "Renaming a non-NVM file to a NVM file or the other way around.",
     fs)
  else if !info_src.nvm_managed then
    (ep.posix.renameStatus fpath_src fpath_tgt, fs)
  else if info_src.dpath ≠ info_tgt.dpath then
    (Status.ioError "Directory change not supported when renaming", fs)
  else
    match findFileUnguarded ep fs info_src with
    | none => (Status.notFound, fs)
    | some file =>
      let fs1 := match findFileUnguarded ep fs info_tgt with
                 | some _ => (deleteFileUnguarded fs info_tgt).2
                 | none => fs
      (Status.ok, renameInFs fs1 file.id info_tgt.fname)

/-- A concrete `EnvParams` used as witness input: paths "d/s" and "d/t"
parse to NVM-managed names "s" and "t" in directory "d"; every other
path is unmanaged. -/
def epW : EnvParams where
  parse := fun p =>
    if p == "d/s" then ⟨true, "d", "s"⟩
    else if p == "d/t" then ⟨true, "d", "t"⟩
    else ⟨false, "u", p⟩
  posix :=
    { file_ok := fun p => p == "u/x"
      children := fun _ => some []
      renameStatus := fun _ _ => Status.ok }
  metaLoad := fun _ _ => none
  sep := "/"

/-- A concrete catalogue used as witness input: directory "d" holds
files "s" (id 1) and "t" (id 2). -/
def fsW : NvmFS := [("d", [⟨1, "s"⟩, ⟨2, "t"⟩])]

/-- A concrete `EnvParams` whose parser manages exactly the path
"nvm0/tgt.log" and reports every other path as unmanaged, over a posix
backend whose `RenameFile` succeeds. -/
def epC1 : EnvParams where
  parse := fun p =>
    if p == "nvm0/tgt.log" then ⟨true, "nvm0", "tgt.log"⟩
    else ⟨false, "/tmp", "src.log"⟩
  posix :=
    { file_ok := fun _ => true
      children := fun _ => some []
      renameStatus := fun _ _ => Status.ok }
  metaLoad := fun _ _ => none
  sep := "/"

end RocksNvm

namespace RocksNvm

lemma groupBytes_nil : groupBytes [] = 0 := rfl

lemma groupBytes_cons (w : Writer) (ws : List Writer) :
    groupBytes (w :: ws) = wSize w + groupBytes ws := by
  simp [groupBytes]

/-- The scan loop never accumulates group bytes past `max size m`:
each merged batch was admitted only after the running size check. -/
lemma scanGroup_bytes (first : Writer) (m : Nat) :
    ∀ (ws : List Writer) (size : Nat),
      size + groupBytes (scanGroup first m ws size).1 ≤ max size m := by
  intro ws
  induction ws with
  | nil => intro size; simp [scanGroup, groupBytes]
  | cons w ws ih =>
    intro size
    by_cases hc : compatOk first w
    · cases hb : w.batch with
      | none => simp [scanGroup, hc, hb, groupBytes]
      | some b =>
        by_cases hs : size + b.byteSize > m
        · simp [scanGroup, hc, hb, hs, groupBytes]
        · have h1 := ih (size + b.byteSize)
          have hw : wSize w = b.byteSize := by simp [wSize, hb]
          simp only [scanGroup, hc, if_true, hb, if_neg hs]
          rw [groupBytes_cons, hw]
          omega
    · simp [scanGroup, hc, groupBytes]

/-- Structure of the scan loop's result: every merged writer passed all
compatibility checks, the merged writers are a prefix of the scanned
list, and the scan stopped either at the end of the list or at a writer
that fails a compatibility check or would push the size past `m`. -/
lemma scanGroup_spec (first : Writer) (m : Nat) :
    ∀ (ws : List Writer) (size : Nat),
      (∀ w ∈ (scanGroup first m ws size).1, compatOk first w = true) ∧
      ∃ tail, ws = (scanGroup first m ws size).1 ++ tail ∧
        (tail = [] ∨ ∃ w t2, tail = w :: t2 ∧
          (compatOk first w = false ∨
           size + groupBytes (scanGroup first m ws size).1 + wSize w > m)) := by
  intro ws
  induction ws with
  | nil =>
    intro size
    refine ⟨by simp [scanGroup], [], by simp [scanGroup], Or.inl rfl⟩
  | cons w ws ih =>
    intro size
    by_cases hc : compatOk first w
    · cases hb : w.batch with
      | none =>
        exfalso
        simp [compatOk, hb] at hc
      | some b =>
        by_cases hs : size + b.byteSize > m
        · refine ⟨by simp [scanGroup, hc, hb, hs], w :: ws,
            by simp [scanGroup, hc, hb, hs], Or.inr ⟨w, ws, rfl, Or.inr ?_⟩⟩
          simp [scanGroup, hc, hb, hs, groupBytes, wSize]
        · obtain ⟨hmem, tail, htail, hstop⟩ := ih (size + b.byteSize)
          have hunf : (scanGroup first m (w :: ws) size).1
              = w :: (scanGroup first m ws (size + b.byteSize)).1 := by
            simp [scanGroup, hc, hb, hs]
          refine ⟨?_, tail, ?_, ?_⟩
          · intro x hx
            rw [hunf] at hx
            rcases List.mem_cons.mp hx with h | h
            · exact h ▸ hc
            · exact hmem x h
          · rw [hunf, List.cons_append]
            exact congrArg (w :: ·) htail
          · rcases hstop with h | ⟨x, t2, ht2, hfail⟩
            · exact Or.inl h
            · refine Or.inr ⟨x, t2, ht2, ?_⟩
              rcases hfail with h | h
              · exact Or.inl h
              · refine Or.inr ?_
                have hw : wSize w = b.byteSize := by simp [wSize, hb]
                rw [hunf, groupBytes_cons, hw]
                omega
    · refine ⟨by simp [scanGroup, hc], w :: ws, by simp [scanGroup, hc],
        Or.inr ⟨w, ws, rfl, Or.inl (by simpa using hc)⟩⟩

end RocksNvm

namespace RocksNvm

/-- C2 counterexample: a single writer whose batch is 2 MiB.
`BuildBatchGroup` returns cumulative size 2097152, which exceeds both
`min(1 MiB, first_size + 128 KiB) = 1 MiB` and 1 MiB itself: the first
batch is pushed into the group unconditionally, before any size check. -/
theorem c2_counterexample :
    buildBatchGroup [⟨1, some ⟨2097152, 1⟩, false, false, 0, false⟩]
      = some ([⟨1, some ⟨2097152, 1⟩, false, false, 0, false⟩], 2097152) ∧
    min 1048576 (2097152 + 131072) < 2097152 ∧ 1048576 < 2097152 := by
  refine ⟨rfl, by norm_num, by norm_num⟩

/-- C2 (amended): the total byte size of the batches actually placed in
the batch group never exceeds `max(1 MiB, first_batch_size + 128 KiB)`.
(The value returned by `BuildBatchGroup` can exceed `max_size`, because
the size of a batch rejected by the size check has already been added to
it, and a first batch larger than 1 MiB alone exceeds 1 MiB.) -/
theorem c2_batch_group_bytes_le (first : Writer) (rest grp : List Writer) (sz : Nat)
    (h : buildBatchGroup (first :: rest) = some (grp, sz)) :
    groupBytes grp ≤ max 1048576 (wSize first + 131072) := by
  cases hb : first.batch with
  | none => simp [buildBatchGroup, hb] at h
  | some b =>
    have hw : wSize first = b.byteSize := by simp [wSize, hb]
    by_cases hcb : first.has_callback
    · have hgrp : grp = [first] := by
        simp [buildBatchGroup, hb, hcb] at h
        exact h.1.symm
      rw [hgrp, groupBytes_cons, groupBytes_nil, hw]
      omega
    · have hgrp : grp = first ::
          (scanGroup first (if b.byteSize ≤ 128 * 1024 then b.byteSize + 128 * 1024
            else 1048576) rest b.byteSize).1 := by
        simp [buildBatchGroup, hb, hcb] at h
        exact h.1.symm
      have hbytes := scanGroup_bytes first
        (if b.byteSize ≤ 128 * 1024 then b.byteSize + 128 * 1024 else 1048576)
        rest b.byteSize
      rw [hgrp, groupBytes_cons, hw]
      by_cases hsmall : b.byteSize ≤ 128 * 1024
      · rw [if_pos hsmall] at hbytes ⊢
        omega
      · rw [if_neg hsmall] at hbytes ⊢
        omega

/-- C2 witness: the amended bound at a concrete singleton queue. -/
theorem c2_batch_group_bytes_le_witness :
    groupBytes [⟨1, some ⟨100, 1⟩, false, false, 0, false⟩]
      ≤ max 1048576 (wSize ⟨1, some ⟨100, 1⟩, false, false, 0, false⟩ + 131072) :=
  c2_batch_group_bytes_le ⟨1, some ⟨100, 1⟩, false, false, 0, false⟩ [] _ 100 rfl

end RocksNvm

namespace RocksNvm

/-- C3: the batch group is a contiguous prefix of the writer queue
starting at the head; every merged writer after the initiator passes all
compatibility predicates (no sync-into-non-sync, no WAL-into-disabled-WAL,
no shorter timeout hint, no callback, non-null batch); the scan stops at
the first writer failing a predicate (or pushing the size past
`max_size`, or the end of the queue); and an initiator with a callback
forms a singleton group. -/
theorem c3_batch_group_prefix (first : Writer) (rest grp : List Writer) (sz : Nat)
    (h : buildBatchGroup (first :: rest) = some (grp, sz)) :
    (first.has_callback = true → grp = [first]) ∧
    (∀ w ∈ grp.tail, compatOk first w = true) ∧
    ∃ tail, first :: rest = grp ++ tail ∧
      (tail = [] ∨ first.has_callback = true ∨
        ∃ w t2, tail = w :: t2 ∧
          (compatOk first w = false ∨ groupBytes grp + wSize w > maxSizeOf first)) := by
  cases hb : first.batch with
  | none => simp [buildBatchGroup, hb] at h
  | some b =>
    have hw : wSize first = b.byteSize := by simp [wSize, hb]
    by_cases hcb : first.has_callback
    · have hgrp : grp = [first] := by
        simp [buildBatchGroup, hb, hcb] at h
        exact h.1.symm
      exact ⟨fun _ => hgrp, by simp [hgrp], rest, by simp [hgrp],
        Or.inr (Or.inl hcb)⟩
    · have hgrp : grp = first ::
          (scanGroup first (if b.byteSize ≤ 128 * 1024 then b.byteSize + 128 * 1024
            else 1048576) rest b.byteSize).1 := by
        simp [buildBatchGroup, hb, hcb] at h
        exact h.1.symm
      have hm : maxSizeOf first
          = (if b.byteSize ≤ 128 * 1024 then b.byteSize + 128 * 1024 else 1048576) := by
        rw [maxSizeOf, hw]
      obtain ⟨hmem, tail, htail, hstop⟩ := scanGroup_spec first
        (if b.byteSize ≤ 128 * 1024 then b.byteSize + 128 * 1024 else 1048576)
        rest b.byteSize
      refine ⟨fun hcb1 => absurd hcb1 (by simpa using hcb), ?_, tail, ?_, ?_⟩
      · intro x hx
        rw [hgrp] at hx
        exact hmem x hx
      · rw [hgrp, List.cons_append]
        exact congrArg (first :: ·) htail
      · rcases hstop with ht | ⟨x, t2, ht2, hfail⟩
        · exact Or.inl ht
        · refine Or.inr (Or.inr ⟨x, t2, ht2, ?_⟩)
          rcases hfail with hf | hf
          · exact Or.inl hf
          · refine Or.inr ?_
            rw [hgrp, groupBytes_cons, hw, hm]
            omega

/-- C3 witness: the structure theorem at a concrete queue where the head
(sync = false) is followed by one compatible small writer and one
incompatible sync writer. -/
theorem c3_batch_group_prefix_witness :
    ((⟨1, some ⟨100, 1⟩, false, false, 0, false⟩ : Writer).has_callback = true →
        [(⟨1, some ⟨100, 1⟩, false, false, 0, false⟩ : Writer),
         ⟨2, some ⟨50, 1⟩, false, false, 0, false⟩]
          = [⟨1, some ⟨100, 1⟩, false, false, 0, false⟩]) ∧
    (∀ w ∈ ([(⟨1, some ⟨100, 1⟩, false, false, 0, false⟩ : Writer),
         ⟨2, some ⟨50, 1⟩, false, false, 0, false⟩] : List Writer).tail,
        compatOk ⟨1, some ⟨100, 1⟩, false, false, 0, false⟩ w = true) ∧
    ∃ tail, [(⟨1, some ⟨100, 1⟩, false, false, 0, false⟩ : Writer),
        ⟨2, some ⟨50, 1⟩, false, false, 0, false⟩,
        ⟨3, some ⟨10, 1⟩, true, false, 0, false⟩]
      = [(⟨1, some ⟨100, 1⟩, false, false, 0, false⟩ : Writer),
         ⟨2, some ⟨50, 1⟩, false, false, 0, false⟩] ++ tail ∧
      (tail = [] ∨
        (⟨1, some ⟨100, 1⟩, false, false, 0, false⟩ : Writer).has_callback = true ∨
        ∃ w t2, tail = w :: t2 ∧
          (compatOk ⟨1, some ⟨100, 1⟩, false, false, 0, false⟩ w = false ∨
           groupBytes [(⟨1, some ⟨100, 1⟩, false, false, 0, false⟩ : Writer),
             ⟨2, some ⟨50, 1⟩, false, false, 0, false⟩] + wSize w
             > maxSizeOf ⟨1, some ⟨100, 1⟩, false, false, 0, false⟩)) :=
  c3_batch_group_prefix ⟨1, some ⟨100, 1⟩, false, false, 0, false⟩
    [⟨2, some ⟨50, 1⟩, false, false, 0, false⟩, ⟨3, some ⟨10, 1⟩, true, false, 0, false⟩]
    [⟨1, some ⟨100, 1⟩, false, false, 0, false⟩, ⟨2, some ⟨50, 1⟩, false, false, 0, false⟩]
    150 rfl

end RocksNvm

namespace RocksNvm

/-- In the infinite-wait regime (`expiration_time == 0`) the wait loop
only ever calls the untimed `cv.Wait()`, so it can never exit with the
`timed_out` flag set. -/
lemma enterLoop_zero_no_timeout :
    ∀ (tr : List (Bool × WState)) (s : WState) (r : Bool × WState),
      enterLoop 0 s tr = some r → r.1 = false := by
  intro tr
  induction tr with
  | nil =>
    intro s r h
    by_cases hc : loopCond s <;> simp [enterLoop, hc] at h
    subst h
    rfl
  | cons p tr ih =>
    obtain ⟨expired, s1⟩ := p
    intro s r h
    by_cases hc : loopCond s
    · rw [enterLoop, if_pos hc, if_pos rfl] at h
      exact ih s1 r h
    · simp [enterLoop, hc] at h
      subst h
      rfl

/-- A `timed_out` exit of the wait loop requires a non-zero
`expiration_time` and happens in a state where `in_batch_group` is
false: an expiry observed with `in_batch_group = true` switches the
loop to `expiration_time = 0`, after which no timeout exit exists. -/
lemma enterLoop_timeout :
    ∀ (tr : List (Bool × WState)) (e : Nat) (s sx : WState),
      enterLoop e s tr = some (true, sx) →
      e ≠ 0 ∧ sx.in_batch_group = false := by
  intro tr
  induction tr with
  | nil =>
    intro e s sx h
    by_cases hc : loopCond s <;> simp [enterLoop, hc] at h
  | cons p tr ih =>
    obtain ⟨expired, s1⟩ := p
    intro e s sx h
    by_cases hc : loopCond s
    · rw [enterLoop, if_pos hc] at h
      by_cases he : e = 0
      · rw [if_pos he] at h
        exact absurd (ih 0 s1 sx h).1 (by simp)
      · rw [if_neg he] at h
        cases hex : expired with
        | true =>
          rw [hex, if_pos rfl] at h
          by_cases hbg : s1.in_batch_group
          · rw [if_pos hbg] at h
            exact absurd (ih 0 s1 sx h).1 (by simp)
          · rw [if_neg hbg] at h
            obtain ⟨-, h2⟩ := Prod.mk.injEq .. ▸ Option.some.injEq .. ▸ h
            refine ⟨he, ?_⟩
            rw [← h2]
            simpa using hbg
        | false =>
          rw [hex] at h
          simp only [Bool.false_eq_true, if_false] at h
          exact ih e s1 sx h
    · simp [enterLoop, hc] at h

/-- C4: `EnterWriteThread` returns `TimedOut` only when
`expiration_time != 0` and the wait loop exited through a `TimedWait`
expiry observed with `in_batch_group = false`; an expiry observed with
`in_batch_group = true` makes the loop re-enter with
`expiration_time = 0`, a regime that never produces a timeout exit. -/
theorem c4_timeout_only_when_unabsorbed
    (w e : Nat) (s : WState) (tr : List (Bool × WState)) (q q1 : QState) (st : Status)
    (h : enterWriteThread w e s tr q = some (st, q1)) :
    (st = Status.timedOut →
      e ≠ 0 ∧ ∃ sx, enterLoop e s tr = some (true, sx) ∧ sx.in_batch_group = false) ∧
    (∀ (e1 : Nat) (s0 sx : WState) (tr1 : List (Bool × WState)),
      e1 ≠ 0 → loopCond s0 = true → sx.in_batch_group = true →
      enterLoop e1 s0 ((true, sx) :: tr1) = enterLoop 0 sx tr1) ∧
    (∀ (s0 sx : WState) (tr1 : List (Bool × WState)),
      enterLoop 0 s0 tr1 ≠ some (true, sx)) := by
  refine ⟨?_, ?_, ?_⟩
  · intro hst
    subst hst
    cases hl : enterLoop e s tr with
    | none =>
      simp only [enterWriteThread, hl] at h
      exact Option.noConfusion h
    | some r =>
      obtain ⟨t, sx⟩ := r
      simp only [enterWriteThread, hl] at h
      by_cases hpr : (!sx.done && sx.pidPos) = true
      · rw [if_pos hpr] at h
        exact absurd h (by simp)
      · rw [if_neg hpr] at h
        cases ht : t with
        | false =>
          rw [ht] at h
          simp only [Bool.false_eq_true, if_false] at h
          exact absurd h (by simp)
        | true =>
          rw [ht] at hl
          obtain ⟨he, hbg⟩ := enterLoop_timeout tr e s sx hl
          exact ⟨he, sx, rfl, hbg⟩
  · intro e1 s0 sx tr1 he1 hc hbg
    rw [enterLoop, if_pos hc, if_neg he1, if_pos rfl, if_pos hbg]
  · intro s0 sx tr1 hcon
    have := enterLoop_zero_no_timeout tr1 s0 (true, sx) hcon
    simp at this

/-- C4 witness: a writer with a 5 µs expiration whose timed wait
expires while it is still an unabsorbed follower. -/
theorem c4_timeout_only_when_unabsorbed_witness :
    ((Status.timedOut = Status.timedOut →
      (5 : Nat) ≠ 0 ∧ ∃ sx, enterLoop 5 ⟨false, false, false, false⟩
        [(true, ⟨false, false, false, false⟩)] = some (true, sx) ∧
        sx.in_batch_group = false) ∧
    (∀ (e1 : Nat) (s0 sx : WState) (tr1 : List (Bool × WState)),
      e1 ≠ 0 → loopCond s0 = true → sx.in_batch_group = true →
      enterLoop e1 s0 ((true, sx) :: tr1) = enterLoop 0 sx tr1) ∧
    (∀ (s0 sx : WState) (tr1 : List (Bool × WState)),
      enterLoop 0 s0 tr1 ≠ some (true, sx))) :=
  c4_timeout_only_when_unabsorbed 1 5 ⟨false, false, false, false⟩
    [(true, ⟨false, false, false, false⟩)] ⟨[1], []⟩ ⟨[], []⟩ Status.timedOut rfl

end RocksNvm

namespace RocksNvm

/-- One timeout removal re-establishes the repair invariant on its own:
afterwards the queue is empty or its new head has just been signaled. -/
lemma timeoutRemove_repair (w : Nat) (q : QState) :
    (timeoutRemove w q).writers = [] ∨
    ∃ f fs2, (timeoutRemove w q).writers = f :: fs2 ∧
      f ∈ (timeoutRemove w q).signaled := by
  cases hws : eraseFirstId w q.writers with
  | nil => exact Or.inl (by simp [timeoutRemove, hws])
  | cons f r =>
    exact Or.inr ⟨f, r, by simp [timeoutRemove, hws], by simp [timeoutRemove, hws]⟩

/-- The repair invariant holds after any non-empty sequence of timeout
removals. -/
lemma foldl_timeoutRemove_repair :
    ∀ (l : List Nat) (q : QState), l ≠ [] →
      (l.foldl (fun qq ww => timeoutRemove ww qq) q).writers = [] ∨
      ∃ f fs2, (l.foldl (fun qq ww => timeoutRemove ww qq) q).writers = f :: fs2 ∧
        f ∈ (l.foldl (fun qq ww => timeoutRemove ww qq) q).signaled := by
  intro l
  induction l with
  | nil => intro q hq; exact absurd rfl hq
  | cons a l ih =>
    intro q _
    cases l with
    | nil => simpa using timeoutRemove_repair a q
    | cons b l2 =>
      exact ih (timeoutRemove a q) (by simp)

/-- C6: when `EnterWriteThread` returns `TimedOut`, the writer has been
erased from `writers_` and the new head (if any) has been signaled; and
after any non-empty sequence of follower timeouts, the queue is empty or
its head's CV has been signaled. -/
theorem c6_timeout_removes_and_signals
    (w e : Nat) (s : WState) (tr : List (Bool × WState)) (q q1 : QState)
    (h : enterWriteThread w e s tr q = some (Status.timedOut, q1))
    (l : List Nat) (hl : l ≠ []) (q0 : QState) :
    (q1.writers = eraseFirstId w q.writers ∧
      (∀ f fs2, q1.writers = f :: fs2 → f ∈ q1.signaled)) ∧
    ((l.foldl (fun qq ww => timeoutRemove ww qq) q0).writers = [] ∨
      ∃ f fs2, (l.foldl (fun qq ww => timeoutRemove ww qq) q0).writers = f :: fs2 ∧
        f ∈ (l.foldl (fun qq ww => timeoutRemove ww qq) q0).signaled) := by
  refine ⟨?_, foldl_timeoutRemove_repair l q0 hl⟩
  have hq1 : q1 = timeoutRemove w q := by
    cases hle : enterLoop e s tr with
    | none =>
      simp only [enterWriteThread, hle] at h
      exact Option.noConfusion h
    | some r =>
      obtain ⟨t, sx⟩ := r
      simp only [enterWriteThread, hle] at h
      by_cases hpr : (!sx.done && sx.pidPos) = true
      · rw [if_pos hpr] at h
        simp at h
      · rw [if_neg hpr] at h
        cases ht : t with
        | false =>
          rw [ht] at h
          simp at h
        | true =>
          rw [ht] at h
          simp at h
          exact h.symm
  subst hq1
  constructor
  · rfl
  · intro f fs2 hf
    have : eraseFirstId w q.writers = f :: fs2 := hf
    simp [timeoutRemove, this]

/-- C6 witness: writer 1 times out while writer 2 waits behind it; 2 is
signaled; a follow-up removal sequence on a second queue. -/
theorem c6_timeout_removes_and_signals_witness :
    ((⟨[2], [2]⟩ : QState).writers
        = eraseFirstId 1 (⟨[1, 2], []⟩ : QState).writers ∧
      (∀ f fs2, (⟨[2], [2]⟩ : QState).writers = f :: fs2 →
        f ∈ (⟨[2], [2]⟩ : QState).signaled)) ∧
    ((List.foldl (fun qq ww => timeoutRemove ww qq)
        (⟨[3, 4], []⟩ : QState) [3]).writers = [] ∨
      ∃ f fs2, (List.foldl (fun qq ww => timeoutRemove ww qq)
          (⟨[3, 4], []⟩ : QState) [3]).writers = f :: fs2 ∧
        f ∈ (List.foldl (fun qq ww => timeoutRemove ww qq)
          (⟨[3, 4], []⟩ : QState) [3]).signaled) :=
  c6_timeout_removes_and_signals 1 5 ⟨false, false, false, false⟩
    [(true, ⟨false, false, false, false⟩)] ⟨[1, 2], []⟩ ⟨[2], [2]⟩ rfl
    [3] (by simp) ⟨[3, 4], []⟩

end RocksNvm

namespace RocksNvm

/-- One-step unfolding of the pop loop on a non-empty queue. -/
lemma exitLoop_cons (wid lastId : Nat) (st : Status) (ready : EWriter)
    (rest : List EWriter) :
    exitLoop wid lastId st (ready :: rest)
      = (if ready.id = lastId then
          ((if ready.id ≠ wid then { ready with status := st, done := true }
            else ready) :: [],
           rest,
           if ready.id ≠ wid then [ready.id] else [])
        else
          ((if ready.id ≠ wid then { ready with status := st, done := true }
            else ready) :: (exitLoop wid lastId st rest).1,
           (exitLoop wid lastId st rest).2.1,
           (if ready.id ≠ wid then [ready.id] else [])
             ++ (exitLoop wid lastId st rest).2.2)) := rfl

/-- Shape of the pop loop's result when `last_writer` is the first
writer of id `lw.id` in the queue: the popped writers are exactly
`pre ++ [lw]` after their updates, the rest of the queue is untouched,
and the signaled ids are those of the popped writers other than the
leader, in order. -/
lemma exitLoop_spec (wid : Nat) (st : Status) :
    ∀ (pre : List EWriter) (lw : EWriter) (rest : List EWriter),
      (∀ p ∈ pre, p.id ≠ lw.id) →
      exitLoop wid lw.id st (pre ++ lw :: rest)
        = ((pre ++ [lw]).map (fun p =>
             if p.id ≠ wid then { p with status := st, done := true } else p),
           rest,
           ((pre ++ [lw]).filter (fun p => !(p.id == wid))).map (fun p => p.id)) := by
  intro pre
  induction pre with
  | nil =>
    intro lw rest _
    rw [List.nil_append, exitLoop_cons, if_pos rfl]
    by_cases hw : lw.id = wid
    · simp [hw, List.filter_cons]
    · simp [hw, List.filter_cons]
  | cons p pre ih =>
    intro lw rest hpre
    have hp : p.id ≠ lw.id := hpre p (by simp)
    have hrec := ih lw rest (fun x hx => hpre x (by simp [hx]))
    rw [List.cons_append, exitLoop_cons, if_neg hp, hrec]
    by_cases hw : p.id = wid
    · simp [hw, List.filter_cons]
    · simp [hw, List.filter_cons]

/-- C7: `ExitWriteThread` pops each head writer of `writers_` up to and
including `last_writer`; every popped writer other than `w` gets the
leader's `status`, has `done` set to true, and is signaled; afterwards,
if `writers_` is non-empty, the new head is signaled too. -/
theorem c7_exit_absorbs_and_signals (wid lastId : Nat) (st : Status)
    (pre rest : List EWriter) (lw : EWriter)
    (hlw : lw.id = lastId) (hpre : ∀ p ∈ pre, p.id ≠ lastId) :
    (exitWriteThread wid lastId st (pre ++ lw :: rest)).1
      = (pre ++ [lw]).map (fun p =>
          if p.id ≠ wid then { p with status := st, done := true } else p) ∧
    (exitWriteThread wid lastId st (pre ++ lw :: rest)).2.1 = rest ∧
    (∀ p ∈ pre ++ [lw], p.id ≠ wid →
      p.id ∈ (exitWriteThread wid lastId st (pre ++ lw :: rest)).2.2) ∧
    (∀ f fs2, rest = f :: fs2 →
      f.id ∈ (exitWriteThread wid lastId st (pre ++ lw :: rest)).2.2) := by
  subst hlw
  have hloop := exitLoop_spec wid st pre lw rest hpre
  have hmem : ∀ p ∈ pre ++ [lw], p.id ≠ wid →
      p.id ∈ ((pre ++ [lw]).filter (fun p => !(p.id == wid))).map
        (fun p => p.id) := by
    intro p hp hw
    refine List.mem_map.mpr ⟨p, ?_, rfl⟩
    refine List.mem_filter.mpr ⟨hp, ?_⟩
    simpa using hw
  cases hrest : rest with
  | nil =>
    rw [hrest] at hloop
    rw [exitWriteThread, hloop]
    dsimp only
    refine ⟨rfl, rfl, hmem, ?_⟩
    intro f fs2 hf
    exact absurd hf (by simp)
  | cons f fs2 =>
    rw [hrest] at hloop
    rw [exitWriteThread, hloop]
    dsimp only
    refine ⟨rfl, rfl, ?_, ?_⟩
    · intro p hp hw
      exact List.mem_append_left _ (hmem p hp hw)
    · intro g gs2 hg
      injection hg with h1 h2
      rw [← h1]
      exact List.mem_append_right _ (by simp)

/-- C7 witness: leader 1 exits a queue `[1, 2, 3]` with
`last_writer = 2`; writer 2 is absorbed and signaled, writer 3 becomes
the new head and is signaled. -/
theorem c7_exit_absorbs_and_signals_witness :
    (exitWriteThread 1 2 Status.ok
        ([(⟨1, false, Status.ok⟩ : EWriter)] ++ ⟨2, false, Status.ok⟩
          :: [⟨3, false, Status.ok⟩])).1
      = List.map (fun p : EWriter =>
          if p.id ≠ 1 then { p with status := Status.ok, done := true } else p)
          ([(⟨1, false, Status.ok⟩ : EWriter)] ++ [⟨2, false, Status.ok⟩]) ∧
    (exitWriteThread 1 2 Status.ok
        ([(⟨1, false, Status.ok⟩ : EWriter)] ++ ⟨2, false, Status.ok⟩
          :: [⟨3, false, Status.ok⟩])).2.1 = [⟨3, false, Status.ok⟩] ∧
    (∀ p ∈ [(⟨1, false, Status.ok⟩ : EWriter)] ++ [(⟨2, false, Status.ok⟩ : EWriter)],
      p.id ≠ 1 →
      p.id ∈ (exitWriteThread 1 2 Status.ok
        ([(⟨1, false, Status.ok⟩ : EWriter)] ++ ⟨2, false, Status.ok⟩
          :: [⟨3, false, Status.ok⟩])).2.2) ∧
    (∀ f fs2, ([⟨3, false, Status.ok⟩] : List EWriter) = f :: fs2 →
      f.id ∈ (exitWriteThread 1 2 Status.ok
        ([(⟨1, false, Status.ok⟩ : EWriter)] ++ ⟨2, false, Status.ok⟩
          :: [⟨3, false, Status.ok⟩])).2.2) :=
  c7_exit_absorbs_and_signals 1 2 Status.ok
    [⟨1, false, Status.ok⟩] [⟨3, false, Status.ok⟩] ⟨2, false, Status.ok⟩
    rfl (by simp)

end RocksNvm

namespace RocksNvm

/-- One-step unfolding of the `StartParallelRun` loop. -/
lemma sprLoop_cons (wid lastId : Nat) (f : PWriter) (rest : List PWriter)
    (pid : Nat) :
    sprLoop wid lastId (f :: rest) pid
      = (match f.batch with
        | none => none
        | some b =>
          if f.id ≠ lastId then
            match sprLoop wid lastId rest (pid + b.count) with
            | none => none
            | some (ps, rem, s2) =>
              some ((f, pid) :: ps, rem, (if f.id ≠ wid then [f.id] else []) ++ s2)
          else some ([(f, pid)], f :: rest,
            if f.id ≠ wid then [f.id] else [])) := rfl

lemma specAssignIds_length : ∀ (l : List PWriter) (pid : Nat),
    (specAssignIds pid l).length = l.length := by
  intro l
  induction l with
  | nil => intro pid; rfl
  | cons w ws ih => intro pid; simp [specAssignIds, ih]

lemma specAssignIds_map_fst : ∀ (l : List PWriter) (pid : Nat),
    (specAssignIds pid l).map Prod.fst = l := by
  intro l
  induction l with
  | nil => intro pid; rfl
  | cons w ws ih => intro pid; simp [specAssignIds, ih]

/-- Shape of the `StartParallelRun` loop's result when `last_writer` is
the first writer of its id in the queue and every writer up to it has a
non-null batch: the writers up to and including `last_writer` are pushed
onto `parallel_writers_` with ids assigned as `specAssignIds` describes,
`last_writer` stays at the head of the remaining queue, and every pushed
writer other than `w` is signaled, in order. -/
lemma sprLoop_spec (wid : Nat) :
    ∀ (pre : List PWriter) (lw : PWriter) (rest : List PWriter) (pid : Nat),
      (∀ p ∈ pre, p.id ≠ lw.id) →
      (∀ p ∈ pre, p.batch ≠ none) → lw.batch ≠ none →
      sprLoop wid lw.id (pre ++ lw :: rest) pid
        = some (specAssignIds pid (pre ++ [lw]), lw :: rest,
            ((pre ++ [lw]).filter (fun p => !(p.id == wid))).map (fun p => p.id)) := by
  intro pre
  induction pre with
  | nil =>
    intro lw rest pid _ _ hbl
    cases hb : lw.batch with
    | none => exact absurd hb hbl
    | some b =>
      rw [List.nil_append, sprLoop_cons, hb]
      dsimp only
      rw [if_neg (by simp)]
      by_cases hw : lw.id = wid
      · simp [hw, specAssignIds, List.filter_cons]
      · simp [hw, specAssignIds, List.filter_cons]
  | cons p pre ih =>
    intro lw rest pid hpre hbp hbl
    have hp : p.id ≠ lw.id := hpre p (by simp)
    cases hb : p.batch with
    | none => exact absurd hb (hbp p (by simp))
    | some b =>
      have hrec := ih lw rest (pid + b.count)
        (fun x hx => hpre x (by simp [hx])) (fun x hx => hbp x (by simp [hx])) hbl
      rw [List.cons_append, sprLoop_cons, hb]
      dsimp only
      rw [if_pos hp, hrec]
      dsimp only
      have hwc : wCount p = b.count := by simp [wCount, hb]
      by_cases hw : p.id = wid
      · simp [hw, specAssignIds, hwc, List.filter_cons]
      · simp [hw, specAssignIds, hwc, List.filter_cons]

/-- C5: with `last_writer` inside the batch group (first occurrence of
its id, all group batches non-null) and `num_threads` equal to the group
size (the assertion at write_thread.cc line 88), `StartParallelRun`
stores `num_threads` into `unfinished_threads_`, pushes exactly the
group onto `parallel_writers_` with `parallel_execute_id` starting at 1
and advancing by each preceding writer's batch count, and leaves
`last_writer` as both the back of `parallel_writers_` and the head of
`writers_`. -/
theorem c5_start_parallel_run
    (wid num_threads lastId : Nat) (pre : List PWriter) (lw : PWriter)
    (rest : List PWriter)
    (hlw : lw.id = lastId) (hpre : ∀ p ∈ pre, p.id ≠ lastId)
    (hbp : ∀ p ∈ pre, p.batch ≠ none) (hbl : lw.batch ≠ none)
    (hn : num_threads = pre.length + 1) :
    startParallelRun wid num_threads lastId (pre ++ lw :: rest)
      = some (specAssignIds 1 (pre ++ [lw]), lw :: rest,
          ((pre ++ [lw]).filter (fun p => !(p.id == wid))).map (fun p => p.id),
          (num_threads : Int)) ∧
    (specAssignIds 1 (pre ++ [lw])).length = num_threads ∧
    ((specAssignIds 1 (pre ++ [lw])).map Prod.fst).getLast? = some lw ∧
    (lw :: rest).head? = some lw := by
  subst hlw
  refine ⟨?_, ?_, ?_, rfl⟩
  · rw [startParallelRun, sprLoop_spec wid pre lw rest 1 hpre hbp hbl]
  · rw [specAssignIds_length]
    simp [hn]
  · rw [specAssignIds_map_fst, List.getLast?_concat]

/-- C5 witness: leader 1 with batch count 2, follower 2 with batch
count 3, `last_writer` 3 with batch count 1, one writer (id 4) queued
behind the group. -/
theorem c5_start_parallel_run_witness :
    startParallelRun 1 3 3
        ([(⟨1, some ⟨5, 2⟩⟩ : PWriter), ⟨2, some ⟨7, 3⟩⟩] ++ ⟨3, some ⟨4, 1⟩⟩
          :: [⟨4, none⟩])
      = some (specAssignIds 1
            ([(⟨1, some ⟨5, 2⟩⟩ : PWriter), ⟨2, some ⟨7, 3⟩⟩] ++ [⟨3, some ⟨4, 1⟩⟩]),
          ⟨3, some ⟨4, 1⟩⟩ :: [⟨4, none⟩],
          List.map (fun p : PWriter => p.id)
            (List.filter (fun p : PWriter => !(p.id == 1))
              ([(⟨1, some ⟨5, 2⟩⟩ : PWriter), ⟨2, some ⟨7, 3⟩⟩]
                ++ [⟨3, some ⟨4, 1⟩⟩])),
          ((3 : Nat) : Int)) ∧
    (specAssignIds 1
        ([(⟨1, some ⟨5, 2⟩⟩ : PWriter), ⟨2, some ⟨7, 3⟩⟩]
          ++ [⟨3, some ⟨4, 1⟩⟩])).length = 3 ∧
    ((specAssignIds 1
        ([(⟨1, some ⟨5, 2⟩⟩ : PWriter), ⟨2, some ⟨7, 3⟩⟩]
          ++ [⟨3, some ⟨4, 1⟩⟩])).map Prod.fst).getLast?
      = some ⟨3, some ⟨4, 1⟩⟩ ∧
    ((⟨3, some ⟨4, 1⟩⟩ : PWriter) :: [⟨4, none⟩]).head? = some ⟨3, some ⟨4, 1⟩⟩ :=
  c5_start_parallel_run 1 3 3 [⟨1, some ⟨5, 2⟩⟩, ⟨2, some ⟨7, 3⟩⟩]
    ⟨3, some ⟨4, 1⟩⟩ [⟨4, none⟩] rfl (by decide) (by decide) (by decide) rfl

end RocksNvm

namespace RocksNvm

/-- Starting `k` calls at counter value `k` (the value
`StartParallelRun` stores for `k` workers), the only `true` result is
the last one. -/
lemma runReports_exact : ∀ (k : Nat) (c : Int), c = k → 1 ≤ k →
    runReports k c = List.replicate (k - 1) false ++ [true] := by
  intro k
  induction k with
  | zero => intro c _ hk; exact absurd hk (by simp)
  | succ k ih =>
    intro c hc hk
    cases k with
    | zero =>
      subst hc
      simp [runReports, reportParallelRunFinish]
    | succ k2 =>
      have hne : (c == 1) = false := by
        simp [hc]
        omega
      have hrec := ih (c + (-1)) (by rw [hc]; push_cast; ring) (by omega)
      rw [runReports, reportParallelRunFinish]
      dsimp only
      rw [hne, hrec]
      have : k2 + 1 + 1 - 1 = (k2 + 1 - 1) + 1 := by omega
      rw [this, List.replicate_succ, List.cons_append]

/-- C8: `ReportParallelRunFinish` decrements `unfinished_threads_` by
one and returns true iff the counter moved from 1 to 0; over the
`n ≥ 1` calls following a `StartParallelRun` that stored `n`, it
returns true exactly once — on the final call. -/
theorem c8_report_finish_true_once (c : Int) (n : Nat) (hn : 1 ≤ n) :
    (reportParallelRunFinish c).2 = c - 1 ∧
    ((reportParallelRunFinish c).1 = true ↔ c = 1) ∧
    runReports n (n : Int) = List.replicate (n - 1) false ++ [true] := by
  refine ⟨by simp [reportParallelRunFinish]; ring, ?_, ?_⟩
  · simp [reportParallelRunFinish]
  · exact runReports_exact n n rfl hn

/-- C8 witness: three workers; only the third call returns true. -/
theorem c8_report_finish_true_once_witness :
    (reportParallelRunFinish 7).2 = 7 - 1 ∧
    ((reportParallelRunFinish 7).1 = true ↔ (7 : Int) = 1) ∧
    runReports 3 ((3 : Nat) : Int) = List.replicate (3 - 1) false ++ [true] :=
  c8_report_finish_true_once 7 3 (by decide)

end RocksNvm

namespace RocksNvm

/-- C1 evaluation: the boundary check of `RenameFile` never fires
because line 327 xors `info_src.nvm_managed()` with itself.  At a
concrete cross-boundary input (source unmanaged, target NVM-managed)
the call delegates to posix `RenameFile` and returns its status — here
`OK` — instead of the IO error the (corrected) spec requires. -/
theorem c1_cross_boundary_rename_not_rejected :
    ∃ ep : EnvParams,
      (ep.parse "/tmp/src.log").nvm_managed = false ∧
      (ep.parse "nvm0/tgt.log").nvm_managed = true ∧
      (renameFile ep [] "/tmp/src.log" "nvm0/tgt.log").1 = Status.ok ∧
      ∀ msg, (renameFile ep [] "/tmp/src.log" "nvm0/tgt.log").1
        ≠ Status.ioError msg := by
  refine ⟨epC1, by decide, by decide, by decide, ?_⟩
  intro msg
  have hev : (renameFile epC1 [] "/tmp/src.log" "nvm0/tgt.log").1 = Status.ok := by
    decide
  rw [hev]
  intro hcon
  exact Status.noConfusion hcon

/-- C9: `DeleteFile` on a path that is not NVM-managed does not delete
anything: it returns exactly what a `FileExists` query on the posix
backend returns (OK iff the file exists) and leaves both the catalogue
and the posix file system untouched (the delegated call is the pure
query `FileExists`, not posix `DeleteFile`). -/
theorem c9_delete_unmanaged_is_a_query (ep : EnvParams) (fs : NvmFS) (p : String)
    (h : (ep.parse p).nvm_managed = false) :
    deleteFile ep fs p = (posixFileExists ep.posix p, fs) ∧
    ((deleteFile ep fs p).1 = Status.ok ↔ ep.posix.file_ok p = true) := by
  have h1 : deleteFile ep fs p = (posixFileExists ep.posix p, fs) := by
    simp [deleteFile, h]
  refine ⟨h1, ?_⟩
  rw [h1]
  dsimp only
  rw [posixFileExists]
  by_cases hf : ep.posix.file_ok p
  · simp [hf]
  · simp [hf]

/-- C9 witness: the unmanaged path "u/x", which exists on the posix
side, with the concrete catalogue `fsW`. -/
theorem c9_delete_unmanaged_is_a_query_witness :
    deleteFile epW fsW "u/x" = (posixFileExists epW.posix "u/x", fsW) ∧
    ((deleteFile epW fsW "u/x").1 = Status.ok ↔ epW.posix.file_ok "u/x" = true) :=
  c9_delete_unmanaged_is_a_query epW fsW "u/x" (by decide)

/-- C10: for an NVM-managed source path, `RenameFile` to a target in a
different directory fails with the directory-change IO error and leaves
the catalogue unchanged; within one directory, if the source is found,
any existing file at the target name is deleted from the catalogue
first, then the source file object is renamed to the target name, and
OK is returned. -/
theorem c10_rename_within_nvm_dir (ep : EnvParams) (fs : NvmFS) (src tgt : String)
    (hsrc : (ep.parse src).nvm_managed = true) :
    ((ep.parse src).dpath ≠ (ep.parse tgt).dpath →
      renameFile ep fs src tgt
        = (Status.ioError "Directory change not supported when renaming", fs)) ∧
    ((ep.parse src).dpath = (ep.parse tgt).dpath →
      ∀ f, findFileUnguarded ep fs (ep.parse src) = some f →
      (∀ g, findFileUnguarded ep fs (ep.parse tgt) = some g →
        renameFile ep fs src tgt
          = (Status.ok,
             renameInFs (deleteFileUnguarded fs (ep.parse tgt)).2 f.id
               (ep.parse tgt).fname)) ∧
      (findFileUnguarded ep fs (ep.parse tgt) = none →
        renameFile ep fs src tgt
          = (Status.ok, renameInFs fs f.id (ep.parse tgt).fname))) := by
  constructor
  · intro hne
    simp [renameFile, hsrc, hne]
  · intro heq f hf
    constructor
    · intro g hg
      simp [renameFile, hsrc, heq, hf, hg]
    · intro hg
      simp [renameFile, hsrc, heq, hf, hg]

/-- C10 witness: renaming "d/s" onto "d/t" inside directory "d" of the
concrete catalogue `fsW`. -/
theorem c10_rename_within_nvm_dir_witness :
    (((epW.parse "d/s").dpath ≠ (epW.parse "d/t").dpath →
      renameFile epW fsW "d/s" "d/t"
        = (Status.ioError "Directory change not supported when renaming", fsW)) ∧
    ((epW.parse "d/s").dpath = (epW.parse "d/t").dpath →
      ∀ f, findFileUnguarded epW fsW (epW.parse "d/s") = some f →
      (∀ g, findFileUnguarded epW fsW (epW.parse "d/t") = some g →
        renameFile epW fsW "d/s" "d/t"
          = (Status.ok,
             renameInFs (deleteFileUnguarded fsW (epW.parse "d/t")).2 f.id
               (epW.parse "d/t").fname)) ∧
      (findFileUnguarded epW fsW (epW.parse "d/t") = none →
        renameFile epW fsW "d/s" "d/t"
          = (Status.ok, renameInFs fsW f.id (epW.parse "d/t").fname)))) :=
  c10_rename_within_nvm_dir epW fsW "d/s" "d/t" (by decide)

end RocksNvm
